import Mathlib

/-!
Verification of the Monkey-language Pratt parser (`monkey/parser/parser.go`)
against its specification.

The development shallowly embeds the parser: the mutable `Parser` struct of the
Go code becomes an explicit state record threaded through the parsing
functions, and the two unbounded `for` loops of the source (the statement loop
of `ParseProgram`, the skip-to-semicolon loops of `parseLetStatement` /
`parseReturnStatement`, and the precedence-climbing loop of `parseExpression`)
are given an explicit fuel parameter: a result of `none` means the
computation did not finish within the given fuel, and a computation that
returns `none` for every fuel is one whose Go original does not terminate.
-/

/-! ## Token model

The token vocabulary is an external collaborator of the parser (package
`monkey/token`, not part of this repository's core). Modelled from the spec:
a token is a kind tag plus literal text; the kinds below are exactly the ones
the parser consults, with the Monkey book's string values. -/

abbrev TokenType := String

namespace token

def ILLEGAL : TokenType := "ILLEGAL"

def EOF : TokenType := "EOF"

def IDENT : TokenType := "IDENT"

def INT : TokenType := "INT"

def ASSIGN : TokenType := "="

def PLUS : TokenType := "+"

def MINUS : TokenType := "-"

def BANG : TokenType := "!"

def ASTERISK : TokenType := "*"

def SLASH : TokenType := "/"

def LT : TokenType := "<"

def GT : TokenType := ">"

def EQ : TokenType := "=="

def NOT_EQ : TokenType := "!="

def SEMICOLON : TokenType := ";"

def LET : TokenType := "LET"

def RETURN : TokenType := "RETURN"

end token

/-- A lexical token: kind tag plus literal text (`monkey/token.Token`). -/
structure Token where
  type : TokenType
  literal : String
deriving DecidableEq, Repr

/-- The token the external lexer produces once its input is exhausted:
`lexer.NextToken` returns `Token{Type: token.EOF, Literal: ""}` on every
pull past the end of input. -/
def eofToken : Token := { type := token.EOF, literal := "" }

/-! ## AST model (`monkey/ast`)

`ast.Expression` and `ast.Statement` are Go interface types whose values may
be `nil`; the `Expression.null` constructor models a `nil ast.Expression`,
and `Option Statement` models a possibly-`nil` statement. -/

/-- Structure `ast.Identifier`: also used as the `Name` field of a `LetStatement`. -/
structure Identifier where
  token : Token
  value : String
deriving DecidableEq, Repr

/-- The `ast.Expression` values built by this parser. `null` is Go's `nil`. -/
inductive Expression where
  | null : Expression
  | ident (token : Token) (value : String) : Expression
  | integerLiteral (token : Token) (value : Int) : Expression
  | prefixExpr (token : Token) (operator : String) (right : Expression) : Expression
  | infixExpr (token : Token) (operator : String) (left : Expression) (right : Expression) :
      Expression
deriving DecidableEq, Repr

/-- The `ast.Statement` variants. The `value` child of `letStmt` and
`returnStmt` is left `Expression.null` by this parser (the source skips the
bound/returned expression up to the semicolon). `name` is `none` only for a
`LetStatement` whose identifier was never assigned (the Go zero value);
every statement this parser actually returns has it set. -/
inductive Statement where
  | letStmt (token : Token) (name : Option Identifier) (value : Expression) : Statement
  | returnStmt (token : Token) (returnValue : Expression) : Statement
  | exprStmt (token : Token) (expression : Expression) : Statement
deriving DecidableEq, Repr

/-- The `ast.Program` root node, an ordered statement sequence. -/
structure Program where
  statements : List Statement
deriving DecidableEq, Repr

/-! ## `strconv.ParseInt(s, 0, 64)` model

The Go standard library function used by `parseIntegerLiteral`, specialized
to base argument `0` and bit size `64` as at its single call site. Faithful
to `strconv.ParseUint`/`ParseInt` for ASCII input: sign, `0b`/`0o`/`0x`
prefixes, legacy leading-`0` octal, digit-separating underscores, and the
int64 range checks. We only model success versus failure plus the value on
success, since the call site only inspects `err != nil` and the value. -/

/-- Go `strconv`'s `lower`: ASCII lower-casing by setting bit 0x20. -/
def lowerC (c : Char) : Char := Char.ofNat (c.toNat ||| 0x20)

/-- The digit value a character denotes in Go's `ParseUint` loop. -/
def digitVal (c : Char) : Option Nat :=
  if '0' ≤ c ∧ c ≤ '9' then some (c.toNat - '0'.toNat)
  else if 'a' ≤ lowerC c ∧ lowerC c ≤ 'z' then some ((lowerC c).toNat - 'a'.toNat + 10)
  else none

/-- Go `strconv.underscoreOK`, main scanning loop: `saw` is the class of the
last character seen (`'^'` start, `'0'` digit or base prefix, `'_'`
underscore, `'!'` other). -/
def underscoreLoop (hex : Bool) : List Char → Char → Bool
  | [], saw => saw ≠ '_'
  | c :: rest, saw =>
    if ('0' ≤ c ∧ c ≤ '9') ∨ (hex ∧ 'a' ≤ lowerC c ∧ lowerC c ≤ 'f') then
      underscoreLoop hex rest '0'
    else if c = '_' then
      if saw ≠ '0' then false else underscoreLoop hex rest '_'
    else if saw = '_' then false
    else underscoreLoop hex rest '!'

/-- Go `strconv.underscoreOK`: underscores must separate digits of the
number's base (sign and base prefix handled first). -/
def underscoreOK (s : List Char) : Bool :=
  let s1 := match s with
    | c :: rest => if c = '-' ∨ c = '+' then rest else s
    | [] => s
  match s1 with
  | c0 :: c1 :: rest2 =>
    if c0 = '0' ∧ (lowerC c1 = 'b' ∨ lowerC c1 = 'o' ∨ lowerC c1 = 'x') then
      underscoreLoop (lowerC c1 = 'x') rest2 '0'
    else underscoreLoop false s1 '^'
  | _ => underscoreLoop false s1 '^'

/-- The two error classes of `strconv`: `ErrSyntax` and `ErrRange`. -/
inductive IntErr where
  | syntaxE : IntErr
  | rangeE : IntErr
deriving DecidableEq, Repr

/-- The digit-accumulation loop of Go `ParseUint`, with the `uint64`
overflow checks written on `Nat` (the checks keep `n` below `maxVal`, so
`Nat` arithmetic agrees with `uint64`). The `Bool` records whether an
underscore was consumed. -/
def parseUintDigits (base cutoff maxVal : Nat) :
    List Char → Nat → Bool → Except IntErr (Nat × Bool)
  | [], n, und => .ok (n, und)
  | c :: rest, n, und =>
    if c = '_' then parseUintDigits base cutoff maxVal rest n true
    else
      match digitVal c with
      | none => .error .syntaxE
      | some d =>
        if base ≤ d then .error .syntaxE
        else if cutoff ≤ n then .error .rangeE
        else if maxVal < n * base + d then .error .rangeE
        else parseUintDigits base cutoff maxVal rest (n * base + d) und

/-- Go `strconv.ParseUint(s, 0, 64)` after sign stripping: base detection
for the base-0 case, the digit loop, and the final underscore check. -/
def parseUint0_64 (s : List Char) : Except IntErr Nat :=
  match s with
  | [] => .error .syntaxE
  | _ =>
    let bs : Nat × List Char :=
      match s with
      | '0' :: tl =>
        match tl with
        | c1 :: rest =>
          if rest ≠ [] ∧ lowerC c1 = 'b' then (2, rest)
          else if rest ≠ [] ∧ lowerC c1 = 'o' then (8, rest)
          else if rest ≠ [] ∧ lowerC c1 = 'x' then (16, rest)
          else (8, tl)
        | [] => (8, tl)
      | _ => (10, s)
    let maxVal : Nat := 2 ^ 64 - 1
    let cutoff : Nat := maxVal / bs.1 + 1
    match parseUintDigits bs.1 cutoff maxVal bs.2 0 false with
    | .error e => .error e
    | .ok (n, und) =>
      if und ∧ ¬ underscoreOK s then .error .syntaxE
      else .ok n

/-- Go `strconv.ParseInt(s, 0, 64)`: `some v` on success, `none` on any
error (the call site only checks `err != nil`). -/
def strconvParseInt (str : String) : Option Int :=
  match str.data with
  | [] => none
  | _ :: _ =>
    let sign : Bool × List Char :=
      match str.data with
      | '+' :: tl => (false, tl)
      | '-' :: tl => (true, tl)
      | other => (false, other)
    match parseUint0_64 sign.2 with
    | .error _ => none
    | .ok un =>
      let cutoff : Nat := 2 ^ 63
      if ¬ sign.1 ∧ cutoff ≤ un then none
      else if sign.1 ∧ cutoff < un then none
      else some (if sign.1 then -(un : Int) else (un : Int))

/-! ## Diagnostic messages

`fmt.Sprintf` templates used by the parser, one definition per call site. -/

def hexDigitChar (n : Nat) : Char :=
  if n < 10 then Char.ofNat ('0'.toNat + n) else Char.ofNat ('a'.toNat + (n - 10))

/-- Go `strconv.Quote` of a single character, exact for ASCII (printable
ASCII passes through, quote and backslash are escaped, the named escapes and
`\xhh` cover the rest); non-ASCII runes are conservatively written as a
`\u` escape (the stdlib leaves printable non-ASCII runes verbatim; no token
literal in this development is non-ASCII). -/
def goQuoteChar (c : Char) : String :=
  if c = '"' then "\\\""
  else if c = '\\' then "\\\\"
  else if 0x20 ≤ c.toNat ∧ c.toNat < 0x7f then String.singleton c
  else if c = '\x07' then "\\a"
  else if c = '\x08' then "\\b"
  else if c = '\x0c' then "\\f"
  else if c = '\n' then "\\n"
  else if c = '\r' then "\\r"
  else if c = '\t' then "\\t"
  else if c = '\x0b' then "\\v"
  else if c.toNat < 0x80 then
    "\\x" ++ String.mk [hexDigitChar (c.toNat / 16), hexDigitChar (c.toNat % 16)]
  else
    "\\u" ++ String.mk [hexDigitChar (c.toNat / 4096 % 16), hexDigitChar (c.toNat / 256 % 16),
      hexDigitChar (c.toNat / 16 % 16), hexDigitChar (c.toNat % 16)]

/-- Go `%q` formatting of a string (`strconv.Quote`). -/
def goQuote (s : String) : String :=
  "\"" ++ String.join (s.data.map goQuoteChar) ++ "\""

/-- Message built by `peekError` (parser.go:274):
`"expected next token to be %s, got %s instead"`. -/
def peekErrorMsg (t got : TokenType) : String :=
  "expected next token to be " ++ t ++ ", got " ++ got ++ " instead"

/-- Message built by `noPrefixParseFnError` (parser.go:168):
`"no prefix parse function for %s found"`. -/
def noPrefixParseFnErrorMsg (t : TokenType) : String :=
  "no prefix parse function for " ++ t ++ " found"

/-- Message built by `parseIntegerLiteral` (parser.go:207):
`"could not parse %q as integer"`. -/
def couldNotParseMsg (lit : String) : String :=
  "could not parse " ++ goQuote lit ++ " as integer"

/-! ## Parser state

The Go `Parser` struct. The `*lexer.Lexer` field becomes the list of tokens
not yet pulled; `lexer.NextToken` returns `eofToken` on every pull past the
end of that list. -/

structure Parser where
  curToken : Token
  peekToken : Token
  rest : List Token
  errors : List String
deriving DecidableEq, Repr

/-- One pull on the token source: the next token and the remaining source. -/
def lexNext : List Token → Token × List Token
  | [] => (eofToken, [])
  | t :: ts => (t, ts)

/-- Method `Parser.nextToken` (parser.go:86): current ← lookahead; lookahead ←
next token from the source. -/
def nextToken (p : Parser) : Parser :=
  { p with
    curToken := p.peekToken
    peekToken := (lexNext p.rest).1
    rest := (lexNext p.rest).2 }

/-- Constructor `New` (parser.go:52): fresh state, then two `nextToken` calls to prime
`curToken` and `peekToken`. The zero-valued initial tokens mirror Go's
zero `token.Token`. -/
def New (toks : List Token) : Parser :=
  nextToken (nextToken
    { curToken := { type := "", literal := "" }
      peekToken := { type := "", literal := "" }
      rest := toks
      errors := [] })

/-- Accessor `Errors` (parser.go:268). -/
def Errors (p : Parser) : List String := p.errors

/-- Method `peekError` (parser.go:273): append one structural-mismatch message. -/
def peekError (t : TokenType) (p : Parser) : Parser :=
  { p with errors := p.errors ++ [peekErrorMsg t p.peekToken.type] }

/-- Method `expectPeek` (parser.go:257): on lookahead match advance and return
true; on mismatch record a diagnostic and return false. -/
def expectPeek (t : TokenType) (p : Parser) : Bool × Parser :=
  if p.peekToken.type = t then (true, nextToken p)
  else (false, peekError t p)

/-! ## Precedences and dispatch registry (parser.go:12-33, 59-76) -/

def LOWEST : Nat := 1

def EQUALS : Nat := 2

def LESSGREATER : Nat := 3

def SUM : Nat := 4

def PRODUCT : Nat := 5

/-- The `PREFIX` precedence level of the source (renamed). -/
def PREFIXPREC : Nat := 6

def CALL : Nat := 7

/-- The `precedences` table (parser.go:24): token kind → binding strength. -/
def precedences (t : TokenType) : Option Nat :=
  if t = token.EQ then some EQUALS
  else if t = token.NOT_EQ then some EQUALS
  else if t = token.LT then some LESSGREATER
  else if t = token.GT then some LESSGREATER
  else if t = token.PLUS then some SUM
  else if t = token.MINUS then some SUM
  else if t = token.SLASH then some PRODUCT
  else if t = token.ASTERISK then some PRODUCT
  else none

/-- Method `peekPrecedence` (parser.go:289): table lookup on the lookahead,
defaulting to `LOWEST`. -/
def peekPrecedence (p : Parser) : Nat := (precedences p.peekToken.type).getD LOWEST

/-- Method `curPrecedence` (parser.go:298). -/
def curPrecedence (p : Parser) : Nat := (precedences p.curToken.type).getD LOWEST

/-- The prefix parse functions registered in `New` (parser.go:60-63), as a
closed enumeration of the three registered handlers. -/
inductive PrefixFn where
  | parseIdentifierF : PrefixFn
  | parseIntegerLiteralF : PrefixFn
  | parsePrefixExpressionF : PrefixFn
deriving DecidableEq, Repr

/-- The `prefixParseFns` registry: IDENT ↦ parseIdentifier, INT ↦
parseIntegerLiteral, BANG and MINUS ↦ parsePrefixExpression. -/
def prefixParseFns (t : TokenType) : Option PrefixFn :=
  if t = token.IDENT then some .parseIdentifierF
  else if t = token.INT then some .parseIntegerLiteralF
  else if t = token.BANG then some .parsePrefixExpressionF
  else if t = token.MINUS then some .parsePrefixExpressionF
  else none

/-- The `infixParseFns` registry (parser.go:66-76): every registered kind
maps to `parseInfixExpression` (SLASH is registered twice in the source,
which is the same map entry), so membership is all that matters. -/
def infixRegistered (t : TokenType) : Bool :=
  t = token.PLUS ∨ t = token.MINUS ∨ t = token.SLASH ∨ t = token.ASTERISK ∨
    t = token.EQ ∨ t = token.NOT_EQ ∨ t = token.LT ∨ t = token.GT

/-! ## Parsing routines -/

/-- Handler `parseIdentifier` (parser.go:197): wrap the current token, no advance. -/
def parseIdentifier (p : Parser) : Expression :=
  Expression.ident p.curToken p.curToken.literal

/-- Handler `parseIntegerLiteral` (parser.go:202): convert the literal with
`strconv.ParseInt(lit, 0, 64)`; on failure record a diagnostic and return
`nil` (here `Expression.null` is not used: the source returns Go `nil`,
modelled as `Expression.null`). -/
def parseIntegerLiteral (p : Parser) : Expression × Parser :=
  match strconvParseInt p.curToken.literal with
  | some v => (Expression.integerLiteral p.curToken v, p)
  | none =>
    (Expression.null,
      { p with errors := p.errors ++ [couldNotParseMsg p.curToken.literal] })

mutual

/-- Method `parseExpression` (parser.go:173): prefix-handler dispatch, then the
precedence-climbing loop. Fuel bounds the recursion; `none` = out of fuel. -/
def parseExpression : Nat → Nat → Parser → Option (Expression × Parser)
  | 0, _, _ => none
  | Nat.succ fuel, precedence, p =>
    match prefixParseFns p.curToken.type with
    | none =>
      some (Expression.null,
        { p with errors := p.errors ++ [noPrefixParseFnErrorMsg p.curToken.type] })
    | some PrefixFn.parseIdentifierF =>
      parseExpressionLoop fuel precedence (parseIdentifier p) p
    | some PrefixFn.parseIntegerLiteralF =>
      let r := parseIntegerLiteral p
      parseExpressionLoop fuel precedence r.1 r.2
    | some PrefixFn.parsePrefixExpressionF =>
      match parsePrefixExpression fuel p with
      | none => none
      | some (e, p1) => parseExpressionLoop fuel precedence e p1

/-- The `for` loop of `parseExpression` (parser.go:181): while the lookahead
is not a semicolon and binds tighter than `precedence`, consume an infix. -/
def parseExpressionLoop : Nat → Nat → Expression → Parser → Option (Expression × Parser)
  | 0, _, _, _ => none
  | Nat.succ fuel, precedence, leftExp, p =>
    if p.peekToken.type ≠ token.SEMICOLON ∧ precedence < peekPrecedence p then
      if infixRegistered p.peekToken.type then
        match parseInfixExpression fuel leftExp (nextToken p) with
        | none => none
        | some (e, p2) => parseExpressionLoop fuel precedence e p2
      else some (leftExp, p)
    else some (leftExp, p)

/-- Handler `parsePrefixExpression` (parser.go:218): record the operator, advance,
parse the operand at `PREFIX` precedence. -/
def parsePrefixExpression : Nat → Parser → Option (Expression × Parser)
  | 0, _ => none
  | Nat.succ fuel, p =>
    match parseExpression fuel PREFIXPREC (nextToken p) with
    | none => none
    | some (right, p2) =>
      some (Expression.prefixExpr p.curToken p.curToken.literal right, p2)

/-- Handler `parseInfixExpression` (parser.go:232): record the operator and its
precedence, advance, parse the right operand at that precedence. -/
def parseInfixExpression : Nat → Expression → Parser → Option (Expression × Parser)
  | 0, _, _ => none
  | Nat.succ fuel, left, p =>
    match parseExpression fuel (curPrecedence p) (nextToken p) with
    | none => none
    | some (right, p2) =>
      some (Expression.infixExpr p.curToken p.curToken.literal left right, p2)

end

/-- The skip loops of `parseLetStatement` (parser.go:135) and
`parseReturnStatement` (parser.go:147): `for !p.curTokenIs(SEMICOLON) {
p.nextToken() }`. This loop has no exit on end of input, which is why it
needs fuel: on a stream with no remaining semicolon it never terminates. -/
def skipToSemicolon : Nat → Parser → Option Parser
  | 0, _ => none
  | Nat.succ fuel, p =>
    if p.curToken.type = token.SEMICOLON then some p
    else skipToSemicolon fuel (nextToken p)

/-- Method `parseLetStatement` (parser.go:122): expect IDENT then ASSIGN (failing
either aborts the statement, returning Go `nil` = inner `none`), then skip
to the semicolon. The `value` child is never parsed (source TODO). -/
def parseLetStatement (fuel : Nat) (p : Parser) : Option (Option Statement × Parser) :=
  match expectPeek token.IDENT p with
  | (false, p1) => some (none, p1)
  | (true, p1) =>
    match expectPeek token.ASSIGN p1 with
    | (false, p2) => some (none, p2)
    | (true, p2) =>
      match skipToSemicolon fuel p2 with
      | none => none
      | some p3 =>
        some (some (Statement.letStmt p.curToken
          (some { token := p1.curToken, value := p1.curToken.literal })
          Expression.null), p3)

/-- Method `parseReturnStatement` (parser.go:141): advance past `return`, skip to
the semicolon; never fails, never records a diagnostic. -/
def parseReturnStatement (fuel : Nat) (p : Parser) : Option (Statement × Parser) :=
  match skipToSemicolon fuel (nextToken p) with
  | none => none
  | some p2 => some (Statement.returnStmt p.curToken Expression.null, p2)

/-- Method `parseExpressionStatement` (parser.go:155): parse one expression at
`LOWEST`, then consume an optional semicolon. -/
def parseExpressionStatement (fuel : Nat) (p : Parser) : Option (Statement × Parser) :=
  match parseExpression fuel LOWEST p with
  | none => none
  | some (expr, p1) =>
    let p2 := if p1.peekToken.type = token.SEMICOLON then nextToken p1 else p1
    some (Statement.exprStmt p.curToken expr, p2)

/-- Method `parseStatement` (parser.go:110): closed dispatch on the current token
kind. The inner `none` is a Go `nil` statement (malformed `let`). -/
def parseStatement (fuel : Nat) (p : Parser) : Option (Option Statement × Parser) :=
  if p.curToken.type = token.LET then parseLetStatement fuel p
  else if p.curToken.type = token.RETURN then
    match parseReturnStatement fuel p with
    | none => none
    | some (s, p1) => some (some s, p1)
  else
    match parseExpressionStatement fuel p with
    | none => none
    | some (s, p1) => some (some s, p1)

/-- The statement loop of `ParseProgram` (parser.go:97): until the current
token is EOF, parse a statement, append it if non-nil, advance. -/
def parseProgramLoop : Nat → Parser → List Statement → Option (List Statement × Parser)
  | 0, _, _ => none
  | Nat.succ fuel, p, acc =>
    if p.curToken.type = token.EOF then some (acc, p)
    else
      match parseStatement fuel p with
      | none => none
      | some (stmtOpt, p1) =>
        parseProgramLoop fuel (nextToken p1)
          (match stmtOpt with
           | some s => acc ++ [s]
           | none => acc)

/-- Method `ParseProgram` (parser.go:92). -/
def ParseProgram (fuel : Nat) (p : Parser) : Option (Program × Parser) :=
  match parseProgramLoop fuel p [] with
  | none => none
  | some (stmts, p1) => some ({ statements := stmts }, p1)

/-- Construct a parser over a token stream and run `ParseProgram`. -/
def runParser (fuel : Nat) (toks : List Token) : Option (Program × Parser) :=
  ParseProgram fuel (New toks)

/-! ## Concrete tokens used by the claims -/

def letTok : Token := { type := token.LET, literal := "let" }

def assignTok : Token := { type := token.ASSIGN, literal := "=" }

def semiTok : Token := { type := token.SEMICOLON, literal := ";" }

def returnTok : Token := { type := token.RETURN, literal := "return" }

def minusTok : Token := { type := token.MINUS, literal := "-" }

def asteriskTok : Token := { type := token.ASTERISK, literal := "*" }

def plusTok : Token := { type := token.PLUS, literal := "+" }

def identTok (s : String) : Token := { type := token.IDENT, literal := s }

def intTok (s : String) : Token := { type := token.INT, literal := s }

/-! ## The pipeline view of parser states

Every parser state is `statePipe l errs` for the list `l` of tokens not yet
consumed (current and lookahead included); `nextToken` is `List.tail` in
this view, and the lexer's implicit EOF padding is built in. This is a
proof device only: the parsing functions above never mention it. -/

def statePipe (l : List Token) (errs : List String) : Parser :=
  match l with
  | [] => { curToken := eofToken, peekToken := eofToken, rest := [], errors := errs }
  | [c] => { curToken := c, peekToken := eofToken, rest := [], errors := errs }
  | c :: pk :: r => { curToken := c, peekToken := pk, rest := r, errors := errs }

@[simp] theorem statePipe_errors (l : List Token) (errs : List String) :
    (statePipe l errs).errors = errs := by
  match l with
  | [] => rfl
  | [c] => rfl
  | c :: pk :: r => rfl

@[simp] theorem nextToken_statePipe (l : List Token) (errs : List String) :
    nextToken (statePipe l errs) = statePipe l.tail errs := by
  match l with
  | [] => rfl
  | [c] => rfl
  | [c, pk] => rfl
  | c :: pk :: x :: r => rfl

@[simp] theorem statePipe_cur_cons (c : Token) (l : List Token) (errs : List String) :
    (statePipe (c :: l) errs).curToken = c := by
  match l with
  | [] => rfl
  | pk :: r => rfl

@[simp] theorem statePipe_cur_nil (errs : List String) :
    (statePipe [] errs).curToken = eofToken := rfl

@[simp] theorem statePipe_peek_cons2 (c pk : Token) (r : List Token) (errs : List String) :
    (statePipe (c :: pk :: r) errs).peekToken = pk := rfl

@[simp] theorem statePipe_peek_one (c : Token) (errs : List String) :
    (statePipe [c] errs).peekToken = eofToken := rfl

@[simp] theorem statePipe_peek_nil (errs : List String) :
    (statePipe [] errs).peekToken = eofToken := rfl

@[simp] theorem statePipe_set_errors (l : List Token) (errs errs2 : List String) :
    { statePipe l errs with errors := errs2 } = statePipe l errs2 := by
  match l with
  | [] => rfl
  | [c] => rfl
  | c :: pk :: r => rfl

theorem New_statePipe (toks : List Token) : New toks = statePipe toks [] := by
  match toks with
  | [] => rfl
  | [t] => rfl
  | t :: u :: r => rfl

@[simp] theorem nextToken_errors (p : Parser) : (nextToken p).errors = p.errors := rfl

theorem skipToSemicolon_errors :
    ∀ fuel (p q : Parser), skipToSemicolon fuel p = some q → q.errors = p.errors := by
  intro fuel
  induction fuel with
  | zero => intro p q h; simp [skipToSemicolon] at h
  | succ f ih =>
    intro p q h
    unfold skipToSemicolon at h
    split at h
    · cases h; rfl
    · have := ih (nextToken p) q h
      simpa using this

/-- Running the skip loop over a semicolon-free block `ns` stops at the
first semicolon. -/
theorem skipToSemicolon_through (ns : List Token) :
    ∀ (fuel : Nat) (after : List Token) (errs : List String) (s : Token),
      s.type = token.SEMICOLON → (∀ t ∈ ns, t.type ≠ token.SEMICOLON) →
      ns.length < fuel →
      skipToSemicolon fuel (statePipe (ns ++ s :: after) errs) =
        some (statePipe (s :: after) errs) := by
  induction ns with
  | nil =>
    intro fuel after errs s hs _ hf
    match fuel, hf with
    | Nat.succ f, _ => simp [skipToSemicolon, hs]
  | cons c ns ih =>
    intro fuel after errs s hs hns hf
    match fuel, hf with
    | Nat.succ f, hf =>
      have hc : c.type ≠ token.SEMICOLON := hns c (by simp)
      have hrec := ih f after errs s hs (fun t ht => hns t (by simp [ht]))
        (by simpa [Nat.succ_lt_succ_iff] using hf)
      simp only [List.cons_append, skipToSemicolon, statePipe_cur_cons, hc, if_neg,
        nextToken_statePipe, List.tail_cons]
      exact hrec

/-! ## Claim C1: precedence of unary minus versus product -/

/-- The token stream of the source text `-a * b`. -/
def negMulToks : List Token :=
  [minusTok, identTok "a", asteriskTok, identTok "b"]

/-- C1: for the token stream of `-a * b`, `parseProgram` produces exactly one
`ExpressionStatement` whose expression is `InfixExpression(*)` with left
child `PrefixExpression(-, a)` and right child the identifier `b` — the
grouping `(-a) * b`. -/
theorem claim_C1 :
    runParser 30 negMulToks =
      some ({ statements := [Statement.exprStmt minusTok
        (Expression.infixExpr asteriskTok "*"
          (Expression.prefixExpr minusTok "-" (Expression.ident (identTok "a") "a"))
          (Expression.ident (identTok "b") "b"))] }, statePipe [] []) := by
  rfl

/-! ## Claim C2: left-associativity of same-precedence chains -/

/-- The token stream of the source text `a - b - c`. -/
def subChainToks : List Token :=
  [identTok "a", minusTok, identTok "b", minusTok, identTok "c"]

/-- C2: `a - b - c` parses to `InfixExpression(-, InfixExpression(-, a, b),
c)`: the right-hand recursive call of `parseInfixExpression` uses the
operator's own precedence, and the climbing loop requires strictly greater
lookahead precedence, so same-level chains associate to the left. -/
theorem claim_C2 :
    runParser 30 subChainToks =
      some ({ statements := [Statement.exprStmt (identTok "a")
        (Expression.infixExpr minusTok "-"
          (Expression.infixExpr minusTok "-"
            (Expression.ident (identTok "a") "a")
            (Expression.ident (identTok "b") "b"))
          (Expression.ident (identTok "c") "c"))] }, statePipe [] []) := by
  rfl

/-! ## Claim C7: the lookahead-expectation primitive -/

/-- C7: on lookahead mismatch `expectPeek` records exactly one diagnostic,
returns failure, and leaves the cursor (current token, lookahead token and
remaining source) unchanged; on match it advances exactly once and returns
success with no diagnostic. -/
theorem claim_C7 (t : TokenType) (p : Parser) :
    (p.peekToken.type ≠ t →
      expectPeek t p =
        (false, { p with errors := p.errors ++ [peekErrorMsg t p.peekToken.type] })) ∧
    (p.peekToken.type = t →
      expectPeek t p = (true, nextToken p) ∧ (nextToken p).errors = p.errors) := by
  constructor
  · intro h
    simp [expectPeek, h, peekError]
  · intro h
    simp [expectPeek, h]

/-- Parser state whose lookahead is an INT where an IDENT is expected. -/
def c7failState : Parser := statePipe [letTok, intTok "5"] []

/-- Parser state whose lookahead is the expected IDENT. -/
def c7okState : Parser := statePipe [letTok, identTok "x"] []

theorem claim_C7_witness :
    (c7failState.peekToken.type ≠ token.IDENT ∧
      expectPeek token.IDENT c7failState =
        (false, { c7failState with
          errors := c7failState.errors ++
            [peekErrorMsg token.IDENT c7failState.peekToken.type] })) ∧
    (c7okState.peekToken.type = token.IDENT ∧
      expectPeek token.IDENT c7okState = (true, nextToken c7okState) ∧
      (nextToken c7okState).errors = c7okState.errors) :=
  ⟨⟨by decide, (claim_C7 token.IDENT c7failState).1 (by decide)⟩,
   ⟨rfl, (claim_C7 token.IDENT c7okState).2 rfl⟩⟩

/-! ## Claim C8: the integer-literal prefix handler -/

/-- C8: on an INT token with text `"5"` the handler returns an
`IntegerLiteral` with value 5 and records no diagnostic; on an INT token
whose text overflows int64 (`2^63` here) it returns the absent (nil)
expression and records exactly one conversion-failure diagnostic. -/
theorem claim_C8 :
    parseIntegerLiteral (statePipe [intTok "5"] []) =
      (Expression.integerLiteral (intTok "5") 5, statePipe [intTok "5"] []) ∧
    parseIntegerLiteral (statePipe [intTok "9223372036854775808"] []) =
      (Expression.null, statePipe [intTok "9223372036854775808"]
        [couldNotParseMsg "9223372036854775808"]) := by
  constructor
  · rfl
  · rfl

/-! ## Claim C9: the return-statement routine -/

/-- C9: whenever the statement dispatcher runs on a `return` token and
completes, the produced statement is a (non-nil) `ReturnStatement` with its
value child left absent, and the diagnostics sequence is unchanged —
regardless of what tokens follow the `return` keyword. -/
theorem claim_C9 (fuel : Nat) (p : Parser) (s : Option Statement) (p1 : Parser)
    (hret : p.curToken.type = token.RETURN)
    (h : parseStatement fuel p = some (s, p1)) :
    s = some (Statement.returnStmt p.curToken Expression.null) ∧
      p1.errors = p.errors := by
  have hnl : ¬ p.curToken.type = token.LET := by rw [hret]; decide
  unfold parseStatement at h
  rw [if_neg hnl, if_pos hret] at h
  unfold parseReturnStatement at h
  cases hs : skipToSemicolon fuel (nextToken p) with
  | none => rw [hs] at h; cases h
  | some p2 =>
    rw [hs] at h
    have hinj := Option.some.inj h
    have hs1 : s = some (Statement.returnStmt p.curToken Expression.null) :=
      (congrArg Prod.fst hinj).symm
    have hp1 : p1 = p2 := (congrArg Prod.snd hinj).symm
    subst hs1
    subst hp1
    refine ⟨rfl, ?_⟩
    have := skipToSemicolon_errors fuel (nextToken p) _ hs
    simpa using this

theorem claim_C9_witness :
    (statePipe [returnTok, intTok "5", semiTok] []).curToken.type = token.RETURN ∧
    parseStatement 10 (statePipe [returnTok, intTok "5", semiTok] []) =
      some (some (Statement.returnStmt returnTok Expression.null), statePipe [semiTok] []) ∧
    some (Statement.returnStmt returnTok Expression.null) =
      some (Statement.returnStmt
        (statePipe [returnTok, intTok "5", semiTok] []).curToken Expression.null) ∧
    (statePipe [semiTok] []).errors =
      (statePipe [returnTok, intTok "5", semiTok] []).errors :=
  ⟨rfl, rfl,
    (claim_C9 10 (statePipe [returnTok, intTok "5", semiTok] [])
      (some (Statement.returnStmt returnTok Expression.null))
      (statePipe [semiTok] []) rfl rfl).1 ▸ rfl,
    (claim_C9 10 (statePipe [returnTok, intTok "5", semiTok] [])
      (some (Statement.returnStmt returnTok Expression.null))
      (statePipe [semiTok] []) rfl rfl).2⟩

/-! ## expectPeek in the pipeline view -/

theorem expectPeek_pipe_pos (t : TokenType) (c pk : Token) (r : List Token)
    (errs : List String) (h : pk.type = t) :
    expectPeek t (statePipe (c :: pk :: r) errs) = (true, statePipe (pk :: r) errs) := by
  unfold expectPeek
  rw [statePipe_peek_cons2, if_pos h, nextToken_statePipe]
  rfl

theorem expectPeek_pipe_neg (t : TokenType) (l : List Token) (errs : List String)
    (h : (statePipe l errs).peekToken.type ≠ t) :
    expectPeek t (statePipe l errs) =
      (false, statePipe l (errs ++ [peekErrorMsg t (statePipe l errs).peekToken.type])) := by
  unfold expectPeek peekError
  rw [if_neg h, statePipe_errors, statePipe_set_errors]

/-- One unfolding step of the statement loop, stated as an equation so that
proofs can rewrite the succ case without touching stuck occurrences. -/
theorem parseProgramLoop_succ (fuel : Nat) (p : Parser) (acc : List Statement) :
    parseProgramLoop (fuel + 1) p acc =
      (if p.curToken.type = token.EOF then some (acc, p)
       else match parseStatement fuel p with
         | none => none
         | some (stmtOpt, p1) =>
           parseProgramLoop fuel (nextToken p1)
             (match stmtOpt with
              | some s => acc ++ [s]
              | none => acc)) := rfl

/-! ## Claim C5: malformed `let` — one diagnostic, no statement, parsing continues -/

/-- C5: when a `let` token is not immediately followed by an identifier, one
iteration of the statement loop records exactly one structural-mismatch
diagnostic, appends no statement, and continues the loop at the next token
with the accumulated statements untouched. -/
theorem claim_C5 (n : Nat) (c : Token) (l : List Token) (errs : List String)
    (acc : List Statement) (hc : c.type = token.LET)
    (hpk : (statePipe (c :: l) errs).peekToken.type ≠ token.IDENT) :
    parseProgramLoop (n + 1) (statePipe (c :: l) errs) acc =
      parseProgramLoop n (statePipe l
        (errs ++ [peekErrorMsg token.IDENT (statePipe (c :: l) errs).peekToken.type])) acc := by
  have hne : ¬ (statePipe (c :: l) errs).curToken.type = token.EOF := by
    rw [statePipe_cur_cons, hc]; decide
  have hstmt : parseStatement n (statePipe (c :: l) errs) =
      some (none, statePipe (c :: l)
        (errs ++ [peekErrorMsg token.IDENT (statePipe (c :: l) errs).peekToken.type])) := by
    unfold parseStatement
    rw [if_pos (by rw [statePipe_cur_cons, hc])]
    unfold parseLetStatement
    simp only [expectPeek_pipe_neg token.IDENT (c :: l) errs hpk]
  rw [parseProgramLoop_succ, if_neg hne]
  simp only [hstmt, nextToken_statePipe, List.tail_cons]

theorem claim_C5_witness :
    letTok.type = token.LET ∧
    (statePipe [letTok, intTok "5", semiTok] []).peekToken.type ≠ token.IDENT ∧
    parseProgramLoop 9 (statePipe [letTok, intTok "5", semiTok] []) [] =
      parseProgramLoop 8 (statePipe [intTok "5", semiTok]
        ([] ++ [peekErrorMsg token.IDENT
          (statePipe [letTok, intTok "5", semiTok] []).peekToken.type])) [] :=
  ⟨rfl, by decide,
    claim_C5 8 letTok [intTok "5", semiTok] [] [] rfl (by decide)⟩

/-! ## Unfolding-step equations for the fueled routines -/

theorem parseExpression_succ (fuel prec : Nat) (p : Parser) :
    parseExpression (fuel + 1) prec p =
      (match prefixParseFns p.curToken.type with
       | none =>
         some (Expression.null,
           { p with errors := p.errors ++ [noPrefixParseFnErrorMsg p.curToken.type] })
       | some PrefixFn.parseIdentifierF =>
         parseExpressionLoop fuel prec (parseIdentifier p) p
       | some PrefixFn.parseIntegerLiteralF =>
         parseExpressionLoop fuel prec (parseIntegerLiteral p).1 (parseIntegerLiteral p).2
       | some PrefixFn.parsePrefixExpressionF =>
         match parsePrefixExpression fuel p with
         | none => none
         | some (e, p1) => parseExpressionLoop fuel prec e p1) := rfl

theorem parseExpressionLoop_succ (fuel prec : Nat) (leftExp : Expression) (p : Parser) :
    parseExpressionLoop (fuel + 1) prec leftExp p =
      (if p.peekToken.type ≠ token.SEMICOLON ∧ prec < peekPrecedence p then
        if infixRegistered p.peekToken.type then
          match parseInfixExpression fuel leftExp (nextToken p) with
          | none => none
          | some (e, p2) => parseExpressionLoop fuel prec e p2
        else some (leftExp, p)
      else some (leftExp, p)) := rfl

theorem parsePrefixExpression_succ (fuel : Nat) (p : Parser) :
    parsePrefixExpression (fuel + 1) p =
      (match parseExpression fuel PREFIXPREC (nextToken p) with
       | none => none
       | some (right, p2) =>
         some (Expression.prefixExpr p.curToken p.curToken.literal right, p2)) := rfl

theorem parseInfixExpression_succ (fuel : Nat) (left : Expression) (p : Parser) :
    parseInfixExpression (fuel + 1) left p =
      (match parseExpression fuel (curPrecedence p) (nextToken p) with
       | none => none
       | some (right, p2) =>
         some (Expression.infixExpr p.curToken p.curToken.literal left right, p2)) := rfl

theorem skipToSemicolon_succ (fuel : Nat) (p : Parser) :
    skipToSemicolon (fuel + 1) p =
      (if p.curToken.type = token.SEMICOLON then some p
       else skipToSemicolon fuel (nextToken p)) := rfl

/-! ## Claim C4: well-formed `let` statements -/

/-- The token stream `let <name> = <mid> ;`. -/
def letStream (name : String) (mid : List Token) : List Token :=
  letTok :: identTok name :: assignTok :: (mid ++ [semiTok])

/-- C4: for every stream `let <ident> = <tokens> ;` whose tail contains no
statement terminator, `parseProgram` yields exactly one statement — a
`LetStatement` bound to the identifier's literal text — and records no
diagnostics at all (in particular none from the identifier and
assignment-operator checks). -/
theorem claim_C4 (name : String) (mid : List Token)
    (hmid : ∀ t ∈ mid, t.type ≠ token.SEMICOLON) :
    runParser (mid.length + 8) (letStream name mid) =
      some ({ statements := [Statement.letStmt letTok
        (some { token := identTok name, value := name }) Expression.null] },
        statePipe [] []) := by
  have hskip : skipToSemicolon (mid.length + 7)
      (statePipe (assignTok :: (mid ++ [semiTok])) []) = some (statePipe [semiTok] []) := by
    have h := skipToSemicolon_through (assignTok :: mid) (mid.length + 7) [] [] semiTok rfl
      (by
        intro t ht
        rcases List.mem_cons.mp ht with h1 | h1
        · subst h1; decide
        · exact hmid t h1)
      (by simp)
    simpa [List.cons_append] using h
  have hcur : (statePipe (letStream name mid) []).curToken = letTok := by
    unfold letStream
    exact statePipe_cur_cons _ _ _
  have hlet : parseLetStatement (mid.length + 7) (statePipe (letStream name mid) []) =
      some (some (Statement.letStmt letTok
        (some { token := identTok name, value := name }) Expression.null),
        statePipe [semiTok] []) := by
    unfold parseLetStatement letStream
    simp only [expectPeek_pipe_pos token.IDENT letTok (identTok name)
        (assignTok :: (mid ++ [semiTok])) [] rfl,
      expectPeek_pipe_pos token.ASSIGN (identTok name) assignTok (mid ++ [semiTok]) [] rfl,
      hskip, statePipe_cur_cons]
    rfl
  have hstmt : parseStatement (mid.length + 7) (statePipe (letStream name mid) []) =
      some (some (Statement.letStmt letTok
        (some { token := identTok name, value := name }) Expression.null),
        statePipe [semiTok] []) := by
    unfold parseStatement
    rw [if_pos (by rw [hcur]; decide)]
    exact hlet
  unfold runParser ParseProgram
  rw [New_statePipe]
  rw [show mid.length + 8 = (mid.length + 7) + 1 from rfl, parseProgramLoop_succ]
  rw [if_neg (by rw [hcur]; decide)]
  simp only [hstmt, nextToken_statePipe, List.tail_cons]
  rw [show mid.length + 7 = (mid.length + 6) + 1 from rfl, parseProgramLoop_succ]
  rw [if_pos (by decide)]
  simp

theorem claim_C4_witness :
    (∀ t ∈ [intTok "5"], t.type ≠ token.SEMICOLON) ∧
    runParser 9 (letStream "x" [intTok "5"]) =
      some ({ statements := [Statement.letStmt letTok
        (some { token := identTok "x", value := "x" }) Expression.null] },
        statePipe [] []) :=
  ⟨by decide, claim_C4 "x" [intTok "5"] (by decide)⟩

/-! ## Claim C10: the expression-statement routine always yields a statement -/

/-- C10: when the current token has no registered prefix handler (and is not
`let`, `return` or EOF), one iteration of the statement loop records the
missing-handler diagnostic and still appends an `ExpressionStatement` whose
expression child is absent, then continues — in contrast with a malformed
`let`, which appends nothing. -/
theorem claim_C10 (n : Nat) (c : Token) (l : List Token) (errs : List String)
    (acc : List Statement) (hnl : c.type ≠ token.LET) (hnr : c.type ≠ token.RETURN)
    (hne : c.type ≠ token.EOF) (hnp : prefixParseFns c.type = none) :
    parseProgramLoop (n + 2) (statePipe (c :: l) errs) acc =
      parseProgramLoop (n + 1)
        (nextToken (if (statePipe (c :: l)
              (errs ++ [noPrefixParseFnErrorMsg c.type])).peekToken.type = token.SEMICOLON
            then nextToken (statePipe (c :: l) (errs ++ [noPrefixParseFnErrorMsg c.type]))
            else statePipe (c :: l) (errs ++ [noPrefixParseFnErrorMsg c.type])))
        (acc ++ [Statement.exprStmt c Expression.null]) := by
  have hexp : parseExpression (n + 1) LOWEST (statePipe (c :: l) errs) =
      some (Expression.null,
        statePipe (c :: l) (errs ++ [noPrefixParseFnErrorMsg c.type])) := by
    rw [parseExpression_succ]
    have hnp2 : prefixParseFns (statePipe (c :: l) errs).curToken.type = none := by
      rw [statePipe_cur_cons]; exact hnp
    rw [hnp2]
    simp only [statePipe_errors, statePipe_set_errors]
    simp only [statePipe_cur_cons]
  have hstmt : parseStatement (n + 1) (statePipe (c :: l) errs) =
      some (some (Statement.exprStmt c Expression.null),
        if (statePipe (c :: l)
            (errs ++ [noPrefixParseFnErrorMsg c.type])).peekToken.type = token.SEMICOLON
          then nextToken (statePipe (c :: l) (errs ++ [noPrefixParseFnErrorMsg c.type]))
          else statePipe (c :: l) (errs ++ [noPrefixParseFnErrorMsg c.type])) := by
    unfold parseStatement
    rw [if_neg (by rw [statePipe_cur_cons]; exact hnl),
      if_neg (by rw [statePipe_cur_cons]; exact hnr)]
    unfold parseExpressionStatement
    simp only [hexp, statePipe_cur_cons]
  rw [show n + 2 = (n + 1) + 1 from rfl, parseProgramLoop_succ,
    if_neg (by rw [statePipe_cur_cons]; exact hne)]
  simp only [hstmt]

theorem claim_C10_witness :
    (plusTok.type ≠ token.LET ∧ plusTok.type ≠ token.RETURN ∧ plusTok.type ≠ token.EOF ∧
      prefixParseFns plusTok.type = none) ∧
    parseProgramLoop 2 (statePipe [plusTok] []) [] =
      parseProgramLoop 1
        (nextToken (if (statePipe [plusTok]
              ([] ++ [noPrefixParseFnErrorMsg plusTok.type])).peekToken.type = token.SEMICOLON
            then nextToken (statePipe [plusTok] ([] ++ [noPrefixParseFnErrorMsg plusTok.type]))
            else statePipe [plusTok] ([] ++ [noPrefixParseFnErrorMsg plusTok.type])))
        ([] ++ [Statement.exprStmt plusTok Expression.null]) :=
  ⟨⟨by decide, by decide, by decide, by decide⟩,
    claim_C10 0 plusTok [] [] [] (by decide) (by decide) (by decide) (by decide)⟩

/-! ## Claim C3: termination

The skip loops of `parseLetStatement`/`parseReturnStatement` have no exit on
end of input: once the token source is exhausted they pull the EOF token
forever. A `let`/`return` statement that is never followed by a semicolon
therefore makes `ParseProgram` diverge, refuting the claim as stated; the
positive part below proves termination for every stream in which each
`let`/`return` token is followed by a later semicolon. -/

/-- On a state whose remaining tokens contain no semicolon the skip loop
runs out of any fuel: this is the non-termination of the Go loop. -/
theorem skip_none (fuel : Nat) :
    ∀ (l : List Token) (errs : List String), (∀ t ∈ l, t.type ≠ token.SEMICOLON) →
      skipToSemicolon fuel (statePipe l errs) = none := by
  induction fuel with
  | zero => intro l errs _; rfl
  | succ f ih =>
    intro l errs hsem
    rw [skipToSemicolon_succ]
    match l with
    | [] =>
      rw [if_neg (by rw [statePipe_cur_nil]; decide), nextToken_statePipe, List.tail_nil]
      exact ih [] errs hsem
    | c :: l1 =>
      rw [if_neg (by rw [statePipe_cur_cons]; exact hsem c (by simp)), nextToken_statePipe,
        List.tail_cons]
      exact ih l1 errs (fun t ht => hsem t (by simp [ht]))

/-- The tokens of `let x = 5` with no statement terminator (the source
returns the EOF token on every pull past the end). -/
def letNoSemiToks : List Token := [letTok, identTok "x", assignTok, intTok "5"]

/-- The parse of a token stream terminates when some fuel completes it. -/
def parseTerminatesOn (toks : List Token) : Prop :=
  ∃ fuel, (runParser fuel toks).isSome = true

theorem runParser_letNoSemi_none (fuel : Nat) :
    runParser fuel letNoSemiToks = none := by
  match fuel with
  | 0 => rfl
  | f + 1 =>
    have hstmt : parseStatement f (statePipe letNoSemiToks []) = none := by
      unfold parseStatement
      rw [if_pos (by decide)]
      unfold parseLetStatement letNoSemiToks
      simp only [expectPeek_pipe_pos token.IDENT letTok (identTok "x")
          [assignTok, intTok "5"] [] rfl,
        expectPeek_pipe_pos token.ASSIGN (identTok "x") assignTok [intTok "5"] [] rfl,
        skip_none f [assignTok, intTok "5"] [] (by decide)]
    unfold runParser ParseProgram
    rw [New_statePipe, parseProgramLoop_succ, if_neg (by decide), hstmt]

/-- C3, counterexample: on the EOF-terminated stream of `let x = 5` (no
semicolon anywhere) `parseProgram` does not terminate: no amount of fuel
completes the parse. -/
theorem claim_C3_counterexample : ¬ parseTerminatesOn letNoSemiToks := by
  rintro ⟨fuel, hf⟩
  rw [runParser_letNoSemi_none fuel] at hf
  simp at hf

/-- Every `let`/`return` token of the stream has a semicolon token somewhere
after it. -/
def semiClosedB : List Token → Bool
  | [] => true
  | t :: rest =>
    (if t.type = token.LET ∨ t.type = token.RETURN
     then rest.any (fun x => x.type = token.SEMICOLON) else true) && semiClosedB rest

theorem semiClosedB_tail (c : Token) (l : List Token) (h : semiClosedB (c :: l) = true) :
    semiClosedB l = true := by
  unfold semiClosedB at h
  simp only [Bool.and_eq_true] at h
  exact h.2

theorem semiClosedB_head (c : Token) (l : List Token)
    (h : semiClosedB (c :: l) = true) (hc : c.type = token.LET ∨ c.type = token.RETURN) :
    ∃ t ∈ l, t.type = token.SEMICOLON := by
  unfold semiClosedB at h
  simp only [Bool.and_eq_true] at h
  have h1 := h.1
  rw [if_pos hc] at h1
  obtain ⟨t, ht, hs⟩ := List.any_eq_true.mp h1
  exact ⟨t, ht, by simpa using hs⟩

theorem semiClosedB_suffix {l2 l : List Token} (hs : l2 <:+ l)
    (h : semiClosedB l = true) : semiClosedB l2 = true := by
  obtain ⟨pre, rfl⟩ := hs
  induction pre with
  | nil => simpa using h
  | cons c pre ih => exact ih (semiClosedB_tail _ _ h)

/-- If a semicolon occurs among the remaining tokens, the skip loop
terminates within `length` steps on a suffix of them. -/
theorem skip_some_of_mem (fuel : Nat) :
    ∀ (l : List Token) (errs : List String), (∃ t ∈ l, t.type = token.SEMICOLON) →
      l.length ≤ fuel →
      ∃ l2, skipToSemicolon fuel (statePipe l errs) = some (statePipe l2 errs) ∧ l2 <:+ l := by
  induction fuel with
  | zero =>
    intro l errs hmem hlen
    obtain ⟨t, ht, _⟩ := hmem
    rw [List.eq_nil_of_length_eq_zero (Nat.le_zero.mp hlen)] at ht
    simp at ht
  | succ f ih =>
    intro l errs hmem hlen
    match l with
    | [] =>
      obtain ⟨t, ht, _⟩ := hmem
      simp at ht
    | c :: l1 =>
      by_cases hc : c.type = token.SEMICOLON
      · exact ⟨c :: l1,
          by rw [skipToSemicolon_succ, if_pos (by rw [statePipe_cur_cons]; exact hc)],
          List.suffix_refl _⟩
      · have hmem1 : ∃ t ∈ l1, t.type = token.SEMICOLON := by
          obtain ⟨t, ht, hs⟩ := hmem
          rcases List.mem_cons.mp ht with h1 | h1
          · rw [h1] at hs; exact absurd hs hc
          · exact ⟨t, h1, hs⟩
        obtain ⟨l2, hl2, hsuf⟩ := ih l1 errs hmem1 (by simp at hlen; omega)
        refine ⟨l2, ?_, hsuf.trans (List.suffix_cons c l1)⟩
        rw [skipToSemicolon_succ, if_neg (by rw [statePipe_cur_cons]; exact hc),
          nextToken_statePipe, List.tail_cons]
        exact hl2

/-- Running `parseExpression` on the exhausted state: no prefix handler for EOF, so
it reports and returns immediately. -/
theorem parseExpression_nil (f prec : Nat) (errs : List String) (hf : 1 ≤ f) :
    parseExpression f prec (statePipe [] errs) =
      some (Expression.null, statePipe [] (errs ++ [noPrefixParseFnErrorMsg token.EOF])) := by
  match f, hf with
  | f1 + 1, _ =>
    rw [parseExpression_succ]
    rw [show prefixParseFns (statePipe [] errs).curToken.type = none from rfl]
    simp only [statePipe_errors, statePipe_set_errors]
    rfl

/-! ## Fuel sufficiency for the expression engine

`3 * length + O(1)` fuel always completes `parseExpression` and friends,
and the resulting state's remaining tokens are a suffix of the input's. -/

def ExprTerm (n : Nat) : Prop :=
  ∀ (l : List Token) (errs : List String) (prec : Nat), 3 * l.length + 3 ≤ n →
    ∃ e l2 errs2, parseExpression n prec (statePipe l errs) = some (e, statePipe l2 errs2) ∧
      l2 <:+ l

def LoopTerm (n : Nat) : Prop :=
  ∀ (l : List Token) (errs : List String) (prec : Nat) (leftExp : Expression),
    3 * l.length + 2 ≤ n →
    ∃ e l2 errs2,
      parseExpressionLoop n prec leftExp (statePipe l errs) = some (e, statePipe l2 errs2) ∧
      l2 <:+ l

def PrefTerm (n : Nat) : Prop :=
  ∀ (l : List Token) (errs : List String), 3 * l.length + 2 ≤ n →
    ∃ e l2 errs2, parsePrefixExpression n (statePipe l errs) = some (e, statePipe l2 errs2) ∧
      l2 <:+ l

def InfTerm (n : Nat) : Prop :=
  ∀ (l : List Token) (errs : List String) (leftExp : Expression), 3 * l.length + 2 ≤ n →
    ∃ e l2 errs2,
      parseInfixExpression n leftExp (statePipe l errs) = some (e, statePipe l2 errs2) ∧
      l2 <:+ l

theorem exprTerm_all : ∀ n, ExprTerm n ∧ LoopTerm n ∧ PrefTerm n ∧ InfTerm n := by
  intro n
  induction n with
  | zero =>
    refine ⟨?_, ?_, ?_, ?_⟩
    · intro l errs prec hb; exact absurd hb (by omega)
    · intro l errs prec leftExp hb; exact absurd hb (by omega)
    · intro l errs hb; exact absurd hb (by omega)
    · intro l errs leftExp hb; exact absurd hb (by omega)
  | succ f ih =>
    obtain ⟨ihA, ihB, ihC, ihD⟩ := ih
    have stepC : PrefTerm (f + 1) := by
      intro l errs hb
      rw [parsePrefixExpression_succ]
      match l with
      | [] =>
        rw [nextToken_statePipe, List.tail_nil]
        simp only [parseExpression_nil f PREFIXPREC errs (by omega)]
        exact ⟨_, [], _, rfl, List.suffix_refl _⟩
      | c :: l1 =>
        rw [nextToken_statePipe, List.tail_cons]
        obtain ⟨e, l2, errs2, heq, hsuf⟩ := ihA l1 errs PREFIXPREC (by simp at hb; omega)
        simp only [heq]
        exact ⟨_, l2, errs2, rfl, hsuf.trans (List.suffix_cons c l1)⟩
    have stepD : InfTerm (f + 1) := by
      intro l errs leftExp hb
      rw [parseInfixExpression_succ]
      match l with
      | [] =>
        rw [nextToken_statePipe, List.tail_nil]
        simp only [parseExpression_nil f (curPrecedence (statePipe [] errs)) errs (by omega)]
        exact ⟨_, [], _, rfl, List.suffix_refl _⟩
      | c :: l1 =>
        rw [nextToken_statePipe, List.tail_cons]
        obtain ⟨e, l2, errs2, heq, hsuf⟩ :=
          ihA l1 errs (curPrecedence (statePipe (c :: l1) errs)) (by simp at hb; omega)
        simp only [heq]
        exact ⟨_, l2, errs2, rfl, hsuf.trans (List.suffix_cons c l1)⟩
    have stepB : LoopTerm (f + 1) := by
      intro l errs prec leftExp hb
      rw [parseExpressionLoop_succ]
      by_cases hcond :
          (statePipe l errs).peekToken.type ≠ token.SEMICOLON ∧
            prec < peekPrecedence (statePipe l errs)
      · rw [if_pos hcond]
        by_cases hreg : infixRegistered (statePipe l errs).peekToken.type = true
        · rw [if_pos hreg]
          match l with
          | [] =>
            rw [statePipe_peek_nil] at hreg
            exact absurd hreg (by decide)
          | [c] =>
            rw [statePipe_peek_one] at hreg
            exact absurd hreg (by decide)
          | c :: pk :: r =>
            rw [nextToken_statePipe, List.tail_cons]
            obtain ⟨e, l2, errs2, heq, hsuf⟩ := ihD (pk :: r) errs leftExp
              (by simp at hb ⊢; omega)
            obtain ⟨e2, l3, errs3, heq2, hsuf2⟩ := ihB l2 errs2 prec e
              (by have := hsuf.length_le; simp at hb this ⊢; omega)
            simp only [heq, heq2]
            exact ⟨e2, l3, errs3, rfl,
              (hsuf2.trans hsuf).trans (List.suffix_cons c (pk :: r))⟩
        · rw [if_neg hreg]
          exact ⟨leftExp, l, errs, rfl, List.suffix_refl _⟩
      · rw [if_neg hcond]
        exact ⟨leftExp, l, errs, rfl, List.suffix_refl _⟩
    have stepA : ExprTerm (f + 1) := by
      intro l errs prec hb
      rw [parseExpression_succ]
      cases hpf : prefixParseFns (statePipe l errs).curToken.type with
      | none =>
        refine ⟨Expression.null, l, errs ++ [noPrefixParseFnErrorMsg
          (statePipe l errs).curToken.type], ?_, List.suffix_refl _⟩
        simp only [hpf, statePipe_errors, statePipe_set_errors]
      | some pf =>
        cases pf with
        | parseIdentifierF =>
          obtain ⟨e, l2, errs2, heq, hsuf⟩ :=
            ihB l errs prec (parseIdentifier (statePipe l errs)) (by omega)
          exact ⟨e, l2, errs2, by simp only [hpf]; exact heq, hsuf⟩
        | parseIntegerLiteralF =>
          have hint : (parseIntegerLiteral (statePipe l errs)).2 = statePipe l errs ∨
              (parseIntegerLiteral (statePipe l errs)).2 =
                statePipe l (errs ++
                  [couldNotParseMsg (statePipe l errs).curToken.literal]) := by
            unfold parseIntegerLiteral
            cases strconvParseInt (statePipe l errs).curToken.literal with
            | none =>
              right
              simp only [statePipe_errors, statePipe_set_errors]
            | some v => left; rfl
          rcases hint with h2 | h2
          · obtain ⟨e, l2, errs2, heq, hsuf⟩ :=
              ihB l errs prec (parseIntegerLiteral (statePipe l errs)).1 (by omega)
            refine ⟨e, l2, errs2, ?_, hsuf⟩
            simp only [hpf]
            rw [h2]
            exact heq
          · obtain ⟨e, l2, errs2, heq, hsuf⟩ :=
              ihB l (errs ++ [couldNotParseMsg (statePipe l errs).curToken.literal]) prec
                (parseIntegerLiteral (statePipe l errs)).1 (by omega)
            refine ⟨e, l2, errs2, ?_, hsuf⟩
            simp only [hpf]
            rw [h2]
            exact heq
        | parsePrefixExpressionF =>
          obtain ⟨e, l2, errs2, heq, hsuf⟩ := ihC l errs (by omega)
          obtain ⟨e2, l3, errs3, heq2, hsuf2⟩ := ihB l2 errs2 prec e
            (by have := hsuf.length_le; omega)
          refine ⟨e2, l3, errs3, ?_, hsuf2.trans hsuf⟩
          simp only [hpf, heq]
          exact heq2
    exact ⟨stepA, stepB, stepC, stepD⟩

theorem letStatement_term (fuel : Nat) (c : Token) (l : List Token) (errs : List String)
    (hsemi : ∃ t ∈ l, t.type = token.SEMICOLON) (hf : l.length ≤ fuel) :
    ∃ so l2 errs2, parseLetStatement fuel (statePipe (c :: l) errs) =
      some (so, statePipe l2 errs2) ∧ l2 <:+ c :: l := by
  unfold parseLetStatement
  match l with
  | [] =>
    obtain ⟨t, ht, _⟩ := hsemi
    simp at ht
  | i :: l1 =>
    by_cases hi : i.type = token.IDENT
    · simp only [expectPeek_pipe_pos token.IDENT c i l1 errs hi]
      have hsemi1 : ∃ t ∈ l1, t.type = token.SEMICOLON := by
        obtain ⟨t, ht, hs⟩ := hsemi
        rcases List.mem_cons.mp ht with h1 | h1
        · rw [h1, hi] at hs; exact absurd hs (by decide)
        · exact ⟨t, h1, hs⟩
      match l1 with
      | [] =>
        obtain ⟨t, ht, _⟩ := hsemi1
        simp at ht
      | a :: l2 =>
        by_cases ha : a.type = token.ASSIGN
        · obtain ⟨l3, hskip, hsuf⟩ := skip_some_of_mem fuel (a :: l2) errs hsemi1
            (by simp at hf ⊢; omega)
          simp only [expectPeek_pipe_pos token.ASSIGN i a l2 errs ha, hskip,
            statePipe_cur_cons]
          exact ⟨_, l3, errs, rfl, (hsuf.trans (List.suffix_cons i (a :: l2))).trans
            (List.suffix_cons c (i :: a :: l2))⟩
        · have hpk : (statePipe (i :: a :: l2) errs).peekToken.type ≠ token.ASSIGN := by
            rw [statePipe_peek_cons2]; exact ha
          simp only [expectPeek_pipe_pos token.IDENT c i (a :: l2) errs hi,
            expectPeek_pipe_neg token.ASSIGN (i :: a :: l2) errs hpk]
          exact ⟨none, i :: a :: l2, _, rfl, List.suffix_cons c (i :: a :: l2)⟩
    · have hpk : (statePipe (c :: i :: l1) errs).peekToken.type ≠ token.IDENT := by
        rw [statePipe_peek_cons2]; exact hi
      simp only [expectPeek_pipe_neg token.IDENT (c :: i :: l1) errs hpk]
      exact ⟨none, c :: i :: l1, _, rfl, List.suffix_refl _⟩

theorem returnStatement_term (fuel : Nat) (c : Token) (l : List Token) (errs : List String)
    (hsemi : ∃ t ∈ l, t.type = token.SEMICOLON) (hf : l.length ≤ fuel) :
    ∃ s l2 errs2, parseReturnStatement fuel (statePipe (c :: l) errs) =
      some (s, statePipe l2 errs2) ∧ l2 <:+ c :: l := by
  unfold parseReturnStatement
  rw [nextToken_statePipe, List.tail_cons]
  obtain ⟨l3, hskip, hsuf⟩ := skip_some_of_mem fuel l errs hsemi hf
  simp only [hskip, statePipe_cur_cons]
  exact ⟨_, l3, errs, rfl, hsuf.trans (List.suffix_cons c l)⟩

theorem statement_term (fuel : Nat) (l : List Token) (errs : List String)
    (hsc : semiClosedB l = true) (hf : 3 * l.length + 3 ≤ fuel) :
    ∃ so l2 errs2, parseStatement fuel (statePipe l errs) = some (so, statePipe l2 errs2) ∧
      l2 <:+ l := by
  match l with
  | [] =>
    unfold parseStatement
    rw [if_neg (by rw [statePipe_cur_nil]; decide), if_neg (by rw [statePipe_cur_nil]; decide)]
    unfold parseExpressionStatement
    simp only [parseExpression_nil fuel LOWEST errs (by omega), statePipe_peek_nil]
    rw [if_neg (by decide)]
    exact ⟨_, [], _, rfl, List.suffix_refl _⟩
  | c :: l1 =>
    by_cases hlet : c.type = token.LET
    · unfold parseStatement
      rw [if_pos (by rw [statePipe_cur_cons]; exact hlet)]
      exact letStatement_term fuel c l1 errs
        (semiClosedB_head c l1 hsc (Or.inl hlet)) (by simp at hf ⊢; omega)
    · by_cases hret : c.type = token.RETURN
      · unfold parseStatement
        rw [if_neg (by rw [statePipe_cur_cons]; exact hlet),
          if_pos (by rw [statePipe_cur_cons]; exact hret)]
        obtain ⟨s, l2, errs2, heq, hsuf⟩ := returnStatement_term fuel c l1 errs
          (semiClosedB_head c l1 hsc (Or.inr hret)) (by simp at hf ⊢; omega)
        exact ⟨some s, l2, errs2, by simp only [heq], hsuf⟩
      · unfold parseStatement
        rw [if_neg (by rw [statePipe_cur_cons]; exact hlet),
          if_neg (by rw [statePipe_cur_cons]; exact hret)]
        unfold parseExpressionStatement
        obtain ⟨e, l2, errs2, heq, hsuf⟩ := (exprTerm_all fuel).1 (c :: l1) errs LOWEST hf
        simp only [heq]
        by_cases hpeek : (statePipe l2 errs2).peekToken.type = token.SEMICOLON
        · rw [if_pos hpeek, nextToken_statePipe]
          exact ⟨_, l2.tail, errs2, rfl, (List.tail_suffix l2).trans hsuf⟩
        · rw [if_neg hpeek]
          exact ⟨_, l2, errs2, rfl, hsuf⟩

theorem programLoop_term :
    ∀ (fuel : Nat) (l : List Token) (errs : List String) (acc : List Statement),
      semiClosedB l = true → 4 * l.length + 4 ≤ fuel →
      (parseProgramLoop fuel (statePipe l errs) acc).isSome = true := by
  intro fuel
  induction fuel with
  | zero => intro l errs acc _ hf; exact absurd hf (by omega)
  | succ f ih =>
    intro l errs acc hsc hf
    rw [parseProgramLoop_succ]
    by_cases he : (statePipe l errs).curToken.type = token.EOF
    · rw [if_pos he]; rfl
    · rw [if_neg he]
      have hl : l ≠ [] := by
        intro h0
        rw [h0] at he
        exact he rfl
      have hlen : 1 ≤ l.length := List.length_pos.mpr hl
      obtain ⟨so, l2, errs2, heq, hsuf⟩ := statement_term f l errs hsc (by omega)
      have hlen2 := hsuf.length_le
      simp only [heq, nextToken_statePipe]
      exact ih l2.tail errs2 _
        (semiClosedB_suffix ((List.tail_suffix l2).trans hsuf) hsc)
        (by simp [List.length_tail]; omega)

/-- C3 (amended): for every finite token stream (EOF supplied by the source
thereafter) in which every `let` and `return` token is followed later in the
stream by a semicolon token, `parseProgram` terminates: fuel linear in the
stream length completes the parse and returns a Program. (As stated the
original claim is refuted by `claim_C3_counterexample`: a `let`/`return`
never followed by a terminator makes the skip loop pull EOF forever.) -/
theorem claim_C3 (toks : List Token) (hsc : semiClosedB toks = true) :
    (runParser (4 * toks.length + 5) toks).isSome = true := by
  unfold runParser ParseProgram
  rw [New_statePipe]
  have h := programLoop_term (4 * toks.length + 5) toks [] [] hsc (by omega)
  cases hres : parseProgramLoop (4 * toks.length + 5) (statePipe toks []) [] with
  | none => rw [hres] at h; simp at h
  | some pr =>
    obtain ⟨stmts, p1⟩ := pr
    rfl

theorem claim_C3_witness :
    semiClosedB (letStream "x" [intTok "5"]) = true ∧
    (runParser (4 * (letStream "x" [intTok "5"]).length + 5)
      (letStream "x" [intTok "5"])).isSome = true :=
  ⟨by decide, claim_C3 (letStream "x" [intTok "5"]) (by decide)⟩

/-! ## Claim C6: every diagnostic has one of the three message forms -/

/-- The three diagnostic templates of the parser's message constructors. -/
def DiagForm (s : String) : Prop :=
  (∃ a b, s = peekErrorMsg a b) ∨ (∃ k, s = noPrefixParseFnErrorMsg k) ∨
    (∃ lit, s = couldNotParseMsg lit)

/-- Every accumulated diagnostic of the state has one of the three forms. -/
def ErrsOk (p : Parser) : Prop := ∀ s ∈ p.errors, DiagForm s

theorem errsOk_append (p : Parser) (m : String) (hp : ErrsOk p) (hm : DiagForm m) :
    ErrsOk { p with errors := p.errors ++ [m] } := by
  intro s hs
  simp only [List.mem_append, List.mem_singleton] at hs
  rcases hs with h | h
  · exact hp s h
  · rw [h]; exact hm

theorem errsOk_nextToken (p : Parser) (h : ErrsOk p) : ErrsOk (nextToken p) :=
  fun s hs => h s hs

theorem errsOk_skip (fuel : Nat) (p q : Parser) (h : skipToSemicolon fuel p = some q)
    (hp : ErrsOk p) : ErrsOk q := by
  intro s hs
  rw [skipToSemicolon_errors fuel p q h] at hs
  exact hp s hs

theorem errsOk_expectPeek (t : TokenType) (p : Parser) (hp : ErrsOk p) :
    ErrsOk (expectPeek t p).2 := by
  unfold expectPeek
  split
  · exact errsOk_nextToken p hp
  · exact errsOk_append p _ hp (Or.inl ⟨_, _, rfl⟩)

theorem errsOk_expr_all : ∀ n,
    (∀ (prec : Nat) (p : Parser) (r : Expression × Parser),
      parseExpression n prec p = some r → ErrsOk p → ErrsOk r.2) ∧
    (∀ (prec : Nat) (leftExp : Expression) (p : Parser) (r : Expression × Parser),
      parseExpressionLoop n prec leftExp p = some r → ErrsOk p → ErrsOk r.2) ∧
    (∀ (p : Parser) (r : Expression × Parser),
      parsePrefixExpression n p = some r → ErrsOk p → ErrsOk r.2) ∧
    (∀ (leftExp : Expression) (p : Parser) (r : Expression × Parser),
      parseInfixExpression n leftExp p = some r → ErrsOk p → ErrsOk r.2) := by
  intro n
  induction n with
  | zero =>
    refine ⟨?_, ?_, ?_, ?_⟩
    · intro prec p r h _; exact absurd h (by rw [show parseExpression 0 prec p = none from rfl]; simp)
    · intro prec leftExp p r h _
      exact absurd h (by rw [show parseExpressionLoop 0 prec leftExp p = none from rfl]; simp)
    · intro p r h _; exact absurd h (by rw [show parsePrefixExpression 0 p = none from rfl]; simp)
    · intro leftExp p r h _
      exact absurd h (by rw [show parseInfixExpression 0 leftExp p = none from rfl]; simp)
  | succ f ih =>
    obtain ⟨ihA, ihB, ihC, ihD⟩ := ih
    refine ⟨?_, ?_, ?_, ?_⟩
    · intro prec p r h hp
      rw [parseExpression_succ] at h
      cases hpf : prefixParseFns p.curToken.type with
      | none =>
        rw [hpf] at h
        cases h
        exact errsOk_append p _ hp (Or.inr (Or.inl ⟨_, rfl⟩))
      | some pf =>
        rw [hpf] at h
        cases pf with
        | parseIdentifierF => exact ihB _ _ _ _ h hp
        | parseIntegerLiteralF =>
          refine ihB _ _ _ _ h ?_
          unfold parseIntegerLiteral
          cases hsl : strconvParseInt p.curToken.literal with
          | none =>
            simp only [hsl]
            exact errsOk_append p _ hp (Or.inr (Or.inr ⟨_, rfl⟩))
          | some v => simpa only [hsl] using hp
        | parsePrefixExpressionF =>
          cases hpp : parsePrefixExpression f p with
          | none => rw [hpp] at h; simp at h
          | some pr1 =>
            obtain ⟨e, p1⟩ := pr1
            rw [hpp] at h
            exact ihB _ _ _ _ h (ihC _ _ hpp hp)
    · intro prec leftExp p r h hp
      rw [parseExpressionLoop_succ] at h
      split at h
      · split at h
        · cases hpi : parseInfixExpression f leftExp (nextToken p) with
          | none => rw [hpi] at h; simp at h
          | some pr1 =>
            obtain ⟨e, p2⟩ := pr1
            rw [hpi] at h
            exact ihB _ _ _ _ h (ihD _ _ _ hpi (errsOk_nextToken p hp))
        · cases h; exact hp
      · cases h; exact hp
    · intro p r h hp
      rw [parsePrefixExpression_succ] at h
      cases hpe : parseExpression f PREFIXPREC (nextToken p) with
      | none => rw [hpe] at h; simp at h
      | some pr1 =>
        obtain ⟨right, p2⟩ := pr1
        rw [hpe] at h
        cases h
        show ErrsOk p2
        exact ihA _ _ _ hpe (errsOk_nextToken p hp)
    · intro leftExp p r h hp
      rw [parseInfixExpression_succ] at h
      cases hpe : parseExpression f (curPrecedence p) (nextToken p) with
      | none => rw [hpe] at h; simp at h
      | some pr1 =>
        obtain ⟨right, p2⟩ := pr1
        rw [hpe] at h
        cases h
        show ErrsOk p2
        exact ihA _ _ _ hpe (errsOk_nextToken p hp)

theorem errsOk_parseStatement (fuel : Nat) (p : Parser) (r : Option Statement × Parser)
    (h : parseStatement fuel p = some r) (hp : ErrsOk p) : ErrsOk r.2 := by
  unfold parseStatement at h
  split at h
  · unfold parseLetStatement at h
    cases hep : expectPeek token.IDENT p with
    | mk b1 p1 =>
      rw [hep] at h
      have hp1 : ErrsOk p1 := by
        have := errsOk_expectPeek token.IDENT p hp
        rw [hep] at this
        exact this
      cases b1 with
      | false => cases h; exact hp1
      | true =>
        dsimp only [] at h
        cases hep2 : expectPeek token.ASSIGN p1 with
        | mk b2 p2 =>
          rw [hep2] at h
          have hp2 : ErrsOk p2 := by
            have := errsOk_expectPeek token.ASSIGN p1 hp1
            rw [hep2] at this
            exact this
          cases b2 with
          | false => cases h; exact hp2
          | true =>
            dsimp only [] at h
            cases hsk : skipToSemicolon fuel p2 with
            | none => rw [hsk] at h; simp at h
            | some p3 =>
              rw [hsk] at h
              cases h
              exact errsOk_skip fuel p2 p3 hsk hp2
  · split at h
    · unfold parseReturnStatement at h
      cases hsk : skipToSemicolon fuel (nextToken p) with
      | none => rw [hsk] at h; simp at h
      | some p2 =>
        rw [hsk] at h
        cases h
        exact errsOk_skip fuel (nextToken p) p2 hsk (errsOk_nextToken p hp)
    · unfold parseExpressionStatement at h
      cases he : parseExpression fuel LOWEST p with
      | none => rw [he] at h; simp at h
      | some pr1 =>
        obtain ⟨e, p1⟩ := pr1
        rw [he] at h
        have h1 : ErrsOk p1 := (errsOk_expr_all fuel).1 _ _ _ he hp
        cases h
        split
        · exact errsOk_nextToken p1 h1
        · exact h1

theorem errsOk_programLoop :
    ∀ (fuel : Nat) (p : Parser) (acc : List Statement) (r : List Statement × Parser),
      parseProgramLoop fuel p acc = some r → ErrsOk p → ErrsOk r.2 := by
  intro fuel
  induction fuel with
  | zero =>
    intro p acc r h _
    exact absurd h (by rw [show parseProgramLoop 0 p acc = none from rfl]; simp)
  | succ f ih =>
    intro p acc r h hp
    rw [parseProgramLoop_succ] at h
    split at h
    · cases h; exact hp
    · cases hs : parseStatement f p with
      | none => rw [hs] at h; simp at h
      | some pr1 =>
        obtain ⟨so, p1⟩ := pr1
        rw [hs] at h
        exact ih _ _ _ h (errsOk_nextToken p1 (errsOk_parseStatement f p _ hs hp))

/-- C6: every string in the diagnostic sequence returned by `Errors` after a
completed parse is exactly of one of the three forms "expected next token to
be KIND, got KIND instead", "no prefix parse function for KIND found", or
"could not parse LITERAL as integer". -/
theorem claim_C6 (toks : List Token) (fuel : Nat) (prog : Program) (pEnd : Parser)
    (h : runParser fuel toks = some (prog, pEnd)) :
    ∀ s ∈ Errors pEnd, DiagForm s := by
  unfold runParser ParseProgram at h
  cases hl : parseProgramLoop fuel (New toks) [] with
  | none => rw [hl] at h; simp at h
  | some pr1 =>
    obtain ⟨stmts, p1⟩ := pr1
    rw [hl] at h
    cases h
    have h0 : ErrsOk (New toks) := by
      intro s hs
      rw [show (New toks).errors = [] from by rw [New_statePipe, statePipe_errors]] at hs
      simp at hs
    exact errsOk_programLoop fuel (New toks) [] _ hl h0

/-- Token stream whose parse produces one diagnostic of each of the three
kinds: a malformed `let`, an overflowing integer literal, and a token with
no prefix handler. -/
def c6Toks : List Token :=
  [letTok, intTok "5", semiTok, intTok "99999999999999999999", semiTok, plusTok, semiTok]

theorem claim_C6_witness :
    ∃ prog pEnd, runParser 60 c6Toks = some (prog, pEnd) ∧ ∀ s ∈ Errors pEnd, DiagForm s :=
  ⟨_, _, rfl, claim_C6 c6Toks 60 _ _ rfl⟩
